import Mathlib

/-!
Verification development for the cloudflare-d1-go repository.

The Go sources are shallowly embedded as Lean definitions:

* migrations/migration.go   : Migration, Less, VersionInt
* migrations/executor.go    : planMigrations, the ExecMax apply loop,
                              getAppliedMigrations (ledger read)
* migrations/parser.go      : parseMigration / appendStatement
* utils (db.go)             : Rows, Next, Scan, StructScan, StructScanAll,
                              convertAssign
* utils/request.go          : APIResponse.ToRows, APIResponse.ToResult

Go machine integers are modelled as Int / Nat with explicit bounds where
overflow matters; fallible code returns Except; Go maps are modelled as
association lists with overwrite-on-insert; the external database client
is modelled as an oracle from (query, params) to an optional error.
-/

set_option maxHeartbeats 1000000

namespace D1

/-! ## Go string primitives

The Go string operations the embedded code uses are modelled directly over
the character lists of Lean strings.  Go compares strings byte-wise on their
UTF-8 encoding, which orders exactly like the code points, so lexicographic
comparison of `Char` lists is faithful. -/

/-- Lexicographic strict order on character lists (Go `<` on strings). -/
def goCharListLt : List Char → List Char → Bool
  | [], [] => false
  | [], _ :: _ => true
  | _ :: _, [] => false
  | a :: as, b :: bs =>
    if a < b then true
    else if b < a then false
    else goCharListLt as bs

/-- Go `a < b` on strings. -/
def goStringLt (a b : String) : Bool :=
  goCharListLt a.data b.data

/-- Go `a <= b` on strings (also the ascending TEXT order of SQLite's
default BINARY collation). -/
def goStringLe (a b : String) : Bool :=
  !(goStringLt b a)

/-- `strings.HasPrefix` on character lists. -/
def isPreList : List Char → List Char → Bool
  | [], _ => true
  | _ :: _, [] => false
  | p :: ps, c :: cs => p = c && isPreList ps cs

/-- `strings.HasPrefix s pre`. -/
def goStartsWith (s pre : String) : Bool :=
  isPreList pre.data s.data

/-- `strings.Contains` on character lists. -/
def isInfixList (needle : List Char) : List Char → Bool
  | [] => needle.isEmpty
  | c :: cs => isPreList needle (c :: cs) || isInfixList needle cs

/-- `strings.Contains s sub`. -/
def goContains (s sub : String) : Bool :=
  isInfixList sub.data s.data

/-- `strings.Split` with a single-character separator (the only form the
sources use: the statement terminator ";"). -/
def splitOnCharList (sep : Char) : List Char → List (List Char)
  | [] => [[]]
  | x :: xs =>
    if x = sep then [] :: splitOnCharList sep xs
    else
      match splitOnCharList sep xs with
      | [] => [[x]]
      | g :: gs => (x :: g) :: gs

/-- `strings.Split s (String.singleton sep)`. -/
def goSplitOnChar (sep : Char) (s : String) : List String :=
  (splitOnCharList sep s.data).map (fun l => String.mk l)

/-- The ASCII whitespace characters of `unicode.IsSpace` (the sources only
ever trim ASCII SQL text). -/
def isSpaceGo (c : Char) : Bool :=
  decide (c = ' ' ∨ c = '\t' ∨ c = '\n' ∨ c = '\r' ∨ c = '\x0b' ∨ c = '\x0c')

/-- `strings.TrimSpace`. -/
def goTrim (s : String) : String :=
  String.mk (((s.data.dropWhile isSpaceGo).reverse.dropWhile isSpaceGo).reverse)

/-- ASCII lower-casing of one character (`strings.ToLower`; the field names
it is applied to are ASCII identifiers). -/
def toLowerChar (c : Char) : Char :=
  if 'A' ≤ c ∧ c ≤ 'Z' then Char.ofNat (c.toNat + 32) else c

/-- `strings.ToLower`. -/
def goToLower (s : String) : String :=
  String.mk (s.data.map toLowerChar)

/-! ## migrations/migration.go -/

inductive MigrationDirection where
  | up
  | down
deriving Repr, DecidableEq

structure Migration where
  Id : String
  Up : List String
  Down : List String
  DisableTransactionUp : Bool
  DisableTransactionDown : Bool
deriving Repr, DecidableEq

/-- Model of the regex test `^(\d+).*$` (RE2): the id matches exactly when it
starts with an ASCII digit and contains no newline (`.` does not match a
newline and `$` only matches at the end of the text). -/
def isNumericId (s : String) : Bool :=
  (match s.data with
   | [] => false
   | c :: _ => c.isDigit)
  && !(s.data.contains '\n')

/-- Numeric value of the maximal leading digit run (the regex capture group). -/
def digitsVal (s : String) : Nat :=
  (s.data.takeWhile Char.isDigit).foldl (fun n c => 10 * n + (c.toNat - '0'.toNat)) 0

/-- `Migration.VersionInt`: `strconv.ParseInt(prefix, 10, 64)`; on a range
error (value exceeding the signed 64-bit maximum) the code returns 0. -/
def versionIntM (m : Migration) : Int :=
  let v := digitsVal m.Id
  if v ≤ 2 ^ 63 - 1 then (v : Int) else 0

/-- `Migration.Less` from migrations/migration.go. -/
def mLess (a b : Migration) : Bool :=
  if isNumericId a.Id && isNumericId b.Id && (versionIntM a != versionIntM b) then
    decide (versionIntM a < versionIntM b)
  else if isNumericId a.Id && !isNumericId b.Id then true
  else if !isNumericId a.Id && isNumericId b.Id then false
  else goStringLt a.Id b.Id

/-! ## migrations/executor.go : planning -/

/-- Lookup of an id in the `migrationMap` built by `planMigrations`: the Go
map is filled by iterating `all` in order, so a later migration with the same
id overwrites an earlier one; lookup therefore finds the last occurrence. -/
def lookupMigration (all : List Migration) (id : String) : Option Migration :=
  all.reverse.find? (fun m => m.Id == id)

/-- `MigrationSet.planMigrations` from migrations/executor.go. -/
def planMigrations (all : List Migration) (applied : List String)
    (dir : MigrationDirection) (max : Int) : List Migration :=
  let toApply :=
    match dir with
    | .up => all.filter (fun m => !(applied.contains m.Id))
    | .down => applied.reverse.filterMap (fun id => lookupMigration all id)
  if 0 < max ∧ max < (toApply.length : Int) then toApply.take max.toNat else toApply

/-- The ledger read `getAppliedMigrations` issues
`SELECT id FROM <table> ORDER BY id ASC;`, so the external database returns
the stored ids sorted ascending by id (SQLite TEXT/BINARY collation, i.e.
lexicographic byte order, which agrees with `String` order on the id
strings); the chronological application order is not preserved. -/
def insertAsc (x : String) : List String → List String
  | [] => [x]
  | y :: ys => if goStringLe x y then x :: y :: ys else y :: insertAsc x ys

/-- Insertion sort of the stored ids, ascending (see the comment above
`insertAsc`): the list the database hands back for the ledger query. -/
def getAppliedIds (ledger : List String) : List String :=
  ledger.foldr insertAsc []

/-- Downward plan as computed by the Executor: the applied-id list it hands to
`planMigrations` is the id-sorted list read from the ledger table. -/
def executorDownPlan (all : List Migration) (ledger : List String) (max : Int) :
    List Migration :=
  planMigrations all (getAppliedIds ledger) .down max

/-- Helper to build a migration carrying only an id. -/
def migNamed (id : String) : Migration :=
  { Id := id, Up := [], Down := [], DisableTransactionUp := false,
    DisableTransactionDown := false }

/-! ## migrations/executor.go : execution loop

The database client (`client.Query`) is an external collaborator; it is
modelled as a deterministic oracle from a query string and its parameter list
to an optional error message.  Every issued query is recorded in a trace so
that "statements already applied are not rolled back" is expressible. -/

/-- The external database collaborator: maps (query, params) to an optional
error message. -/
def QueryOracle : Type := String → List String → Option String

/-- Execution of a statement list: `for _, q := range queries { client.Query(q, nil) }`
aborting on the first error.  Returns the trace of issued queries and the
first error, if any. -/
def runQueries (q : QueryOracle) : List String → List (String × List String) × Option String
  | [] => ([], none)
  | s :: rest =>
    match q s [] with
    | some e => ([(s, [])], some e)
    | none =>
      let res := runQueries q rest
      ((s, []) :: res.1, res.2)

/-- `MigrationSet.getTableName`. -/
def getTableName (tableName : String) : String :=
  if tableName = "" then "d1_migrations" else tableName

/-- The ledger-insert query issued after a successful upward migration. -/
def insertLedgerQuery (t : String) : String :=
  "INSERT INTO " ++ t ++ " (id, applied_at) VALUES (?, ?);"

/-- The ledger-delete query issued after a successful downward migration. -/
def deleteLedgerQuery (t : String) : String :=
  "DELETE FROM " ++ t ++ " WHERE id = ?;"

/-- The statement list `applyMigration` executes for a direction:
`queries := m.Up; if dir == Down { queries = m.Down }`. -/
def migQueries (m : Migration) (dir : MigrationDirection) : List String :=
  match dir with
  | .up => m.Up
  | .down => m.Down

/-- The ledger-recording query (with parameters) issued after all statements
of a migration succeeded.  `now` stands for `time.Now().Format(time.RFC3339)`. -/
def recordQuery (tableName now : String) (m : Migration) (dir : MigrationDirection) :
    String × List String :=
  match dir with
  | .up => (insertLedgerQuery (getTableName tableName), [m.Id, now])
  | .down => (deleteLedgerQuery (getTableName tableName), [m.Id])

/-- `MigrationSet.applyMigration`: run the direction's statements in order,
abort on the first failure; on success record the migration in the ledger
table (that query may itself fail).  First component: trace of issued
queries; second: the error, if any. -/
def applyMigration (q : QueryOracle) (tableName now : String) (m : Migration)
    (dir : MigrationDirection) : List (String × List String) × Option String :=
  let res := runQueries q (migQueries m dir)
  match res.2 with
  | some e => (res.1, some e)
  | none =>
    let rq := recordQuery tableName now m dir
    (res.1 ++ [rq], q rq.1 rq.2)

/-- The apply loop of `MigrationSet.ExecMax` (steps 4-5): apply each planned
migration in order; on the first failure return the count of fully completed
migrations and the wrapped error; otherwise the full count.  The trace of all
issued queries is returned as the third component. -/
def execPlan (q : QueryOracle) (tableName now : String) (dir : MigrationDirection) :
    List Migration → Nat × Option String × List (String × List String)
  | [] => (0, none, [])
  | m :: rest =>
    let res := applyMigration q tableName now m dir
    match res.2 with
    | some e => (0, some ("failed to apply migration " ++ m.Id ++ ": " ++ e), res.1)
    | none =>
      let next := execPlan q tableName now dir rest
      (next.1 + 1, next.2.1, res.1 ++ next.2.2)

/-! ## migrations/parser.go -/

structure ParsedMigration where
  UpStatements : List String
  DownStatements : List String
  DisableTransactionUp : Bool
  DisableTransactionDown : Bool
deriving Repr, DecidableEq

/-- `splitSQLStatements`: `strings.Split(sql, ";")`. -/
def splitSQLStatements (sql : String) : List String :=
  goSplitOnChar ';' sql

/-- Statements harvested from a buffered section: split on the terminator,
trim each fragment, drop the empty ones (the loop body of `appendStatement`). -/
def stmtsOf (sql : String) : List String :=
  ((splitSQLStatements sql).map goTrim).filter (fun s => !(s == ""))

/-- `appendStatement` from migrations/parser.go. -/
def appendStatement (p : ParsedMigration) (dir : MigrationDirection) (sql : String) :
    ParsedMigration :=
  match dir with
  | .up => { p with UpStatements := p.UpStatements ++ stmtsOf sql }
  | .down => { p with DownStatements := p.DownStatements ++ stmtsOf sql }

/-- `strings.Contains(s, sub)`. -/
def containsSubstr (s sub : String) : Bool :=
  goContains s sub

/-- `bytes.Buffer` accumulation of a regular line:
`if buf.Len() > 0 { buf.WriteString("\n") }; buf.WriteString(line)`. -/
def bufAppendLine (buf line : String) : String :=
  if buf = "" then line else buf ++ "\n" ++ line

/-- Parser state of `parseMigration`: current direction, line buffer,
accumulated result. -/
structure ParseState where
  dir : MigrationDirection
  buf : String
  parsed : ParsedMigration
deriving Repr, DecidableEq

/-- One iteration of the scanner loop in `parseMigration`. -/
def parseLine (st : ParseState) (line : String) : ParseState :=
  if goStartsWith line "-- +migrate Up" then
    let p := if st.buf ≠ "" then appendStatement st.parsed st.dir st.buf else st.parsed
    let p := if containsSubstr line "notransaction" then
      { p with DisableTransactionUp := true } else p
    { dir := .up, buf := "", parsed := p }
  else if goStartsWith line "-- +migrate Down" then
    let p := if st.buf ≠ "" then appendStatement st.parsed st.dir st.buf else st.parsed
    let p := if containsSubstr line "notransaction" then
      { p with DisableTransactionDown := true } else p
    { dir := .down, buf := "", parsed := p }
  else if goStartsWith line "-- +migrate StatementBegin" then st
  else if goStartsWith line "-- +migrate StatementEnd" then st
  else { st with buf := bufAppendLine st.buf line }

/-- The initial parser state: `currentDirection = Up`, empty buffer, empty
result. -/
def initParseState : ParseState :=
  { dir := .up, buf := "",
    parsed := { UpStatements := [], DownStatements := [],
                DisableTransactionUp := false, DisableTransactionDown := false } }

/-- `parseMigration` from migrations/parser.go, embedded over the list of
lines produced by `bufio.Scanner`: fold the loop body over the lines, then
flush the remaining buffer into the current section. -/
def parseMigrationLines (lines : List String) : ParsedMigration :=
  let st := lines.foldl parseLine initParseState
  if st.buf ≠ "" then appendStatement st.parsed st.dir st.buf else st.parsed

/-- A line recognised by any of the four directive tests of the parser. -/
def isDirectiveLine (l : String) : Bool :=
  goStartsWith l "-- +migrate Up" || goStartsWith l "-- +migrate Down" ||
  goStartsWith l "-- +migrate StatementBegin" || goStartsWith l "-- +migrate StatementEnd"

/-- The buffer contents after accumulating a run of regular lines. -/
def accumLines (lines : List String) : String :=
  lines.foldl bufAppendLine ""

/-! ## utils : wire values and rows

A decoded JSON value held in a Go `interface{}`.  Wire numbers are IEEE
doubles in Go (`float64`); they are modelled as rationals, for which the
integer truncations performed by the code are exact. -/

inductive WireValue where
  | vnull
  | vbool (b : Bool)
  | vnum (q : Rat)
  | vstr (s : String)
  | varr (elems : List WireValue)
  | vobj (fields : List (String × WireValue))
deriving Repr

/-- A Go `map[string]interface{}`, modelled as an association list whose keys
are unique (insertion overwrites). -/
abbrev RowMap : Type := List (String × WireValue)

/-- Map lookup `row[k]`. -/
def mapGet? (m : RowMap) (k : String) : Option WireValue :=
  (m.find? (fun p => p.1 == k)).map (fun p => p.2)

/-- Map assignment `m[k] = v`: any previous binding of `k` is overwritten. -/
def mapSet (m : RowMap) (k : String) (v : WireValue) : RowMap :=
  m.filter (fun p => !(p.1 == k)) ++ [(k, v)]

/-- The `Rows` cursor from utils (db file): row buffer, column names and the
mutable position, which starts at the -1 sentinel. -/
structure Rows where
  rows : List RowMap
  columns : List String
  current : Int

/-- `NewRows`: when no columns are supplied and rows exist, the column list is
inferred from the keys of the first row (`for k := range rows[0]`; Go map
iteration order is unspecified — modelled as the stored key order; no theorem
below depends on it). -/
def NewRows (rows : List RowMap) (columns : List String) : Rows :=
  let cols :=
    if columns.length = 0 then
      match rows with
      | [] => columns
      | r :: _ => r.map (fun p => p.1)
    else columns
  { rows := rows, columns := cols, current := -1 }

/-- `Rows.Next`: advance the position, report whether a row is available. -/
def rowsNext (r : Rows) : Bool × Rows :=
  let r2 : Rows := { r with current := r.current + 1 }
  (decide (r2.current < (r2.rows.length : Int)), r2)

/-! ## utils : convertAssign -/

/-- `%T` of a wire value held in an `interface{}`. -/
def goTypeName : WireValue → String
  | .vnull => "<nil>"
  | .vbool _ => "bool"
  | .vnum _ => "float64"
  | .vstr _ => "string"
  | .varr _ => "[]interface {}"
  | .vobj _ => "map[string]interface {}"

/-- `fmt.Sprintf("%v", src)`.  Only the null, boolean and string forms are
relied on by any theorem; the textual form of numbers and nested structures
is approximated (integral floats print without a fractional part under
`%v`). -/
def sprintGo : WireValue → String
  | .vnull => "<nil>"
  | .vbool b => if b then "true" else "false"
  | .vstr s => s
  | .vnum q => if q.den = 1 then toString q.num else toString q
  | .varr _ => "[]"
  | .vobj _ => "map[]"

/-- Base-10 value of a digit list. -/
def natOfDigits (ds : List Char) : Nat :=
  ds.foldl (fun n c => 10 * n + (c.toNat - '0'.toNat)) 0

/-- Optional leading sign. -/
def splitSign : List Char → Bool × List Char
  | [] => (false, [])
  | c :: rest =>
    if c = '-' then (true, rest)
    else if c = '+' then (false, rest)
    else (false, c :: rest)

/-- Model of `fmt.Sscanf(s, "%d", &i)`: skip leading spaces, read an optional
sign and a nonempty digit run (trailing input is ignored), and range-check
against a 64-bit signed integer; `none` when no integer can be read. -/
def sscanfInt (s : String) : Option Int :=
  let cs := s.data.dropWhile isSpaceGo
  let sr := splitSign cs
  let ds := sr.2.takeWhile Char.isDigit
  if ds.isEmpty then none
  else
    let v : Int := if sr.1 then -(natOfDigits ds : Int) else (natOfDigits ds : Int)
    if -(2 ^ 63) ≤ v ∧ v ≤ 2 ^ 63 - 1 then some v else none

/-- Truncation toward zero of a rational, mirroring Go's `int(f)` / `int64(f)`
conversion of a `float64`. -/
def ratTrunc (q : Rat) : Int :=
  q.num.tdiv (q.den : Int)

/-- A typed scan destination (the pointer target of a `dest` argument).
`gother` stands for any destination type `convertAssign` has no case for;
its reflection fallback leaves the destination unchanged and reports no
error. -/
inductive GoVal where
  | gstr (s : String)
  | gint (n : Int)
  | gint64 (n : Int)
  | gfloat (q : Rat)
  | gbool (b : Bool)
  | gany (v : WireValue)
  | gother
deriving Repr

/-- `convertAssign` from the utils db file: copy `src` into the destination,
per destination type.  The `sql.Scanner` case is outside the model (no such
destination is constructible here). -/
def convertAssign (dest : GoVal) (src : WireValue) : Except String GoVal :=
  match dest with
  | .gstr _ =>
    match src with
    | .vnull => .ok (.gstr "")
    | _ => .ok (.gstr (sprintGo src))
  | .gint _ =>
    match src with
    | .vnull => .ok (.gint 0)
    | .vnum q => .ok (.gint (ratTrunc q))
    | .vstr s =>
      match sscanfInt s with
      | some i => .ok (.gint i)
      | none => .error ("cannot convert " ++ goTypeName src ++ " to int")
    | _ => .error ("cannot convert " ++ goTypeName src ++ " to int")
  | .gint64 _ =>
    match src with
    | .vnull => .ok (.gint64 0)
    | .vnum q => .ok (.gint64 (ratTrunc q))
    | _ => .error ("cannot convert " ++ goTypeName src ++ " to int64")
  | .gfloat _ =>
    match src with
    | .vnull => .ok (.gfloat 0)
    | .vnum q => .ok (.gfloat q)
    | _ => .error ("cannot convert " ++ goTypeName src ++ " to float64")
  | .gbool _ =>
    match src with
    | .vnull => .ok (.gbool false)
    | .vbool b => .ok (.gbool b)
    | .vnum q => .ok (.gbool (decide (¬ q = 0)))
    | _ => .error ("cannot convert " ++ goTypeName src ++ " to bool")
  | .gany _ => .ok (.gany src)
  | .gother => .ok .gother

/-! ## utils : Scan / StructScan / StructScanAll -/

/-- The loop body of `Rows.Scan` for one column (index `i`, name `colName`):
a column missing from the row map is treated as null, then `convertAssign`
runs; its error is wrapped with the column index and name. -/
def scanStep (row : RowMap) (i : Nat) (colName : String) (d : GoVal) :
    Except String GoVal :=
  let val :=
    match mapGet? row colName with
    | some v => v
    | none => WireValue.vnull
  match convertAssign d val with
  | .ok d2 => .ok d2
  | .error e =>
    .error ("sql: Scan error on column index " ++ toString i ++ ", name \"" ++
      colName ++ "\": " ++ e)

/-- The column loop of `Rows.Scan`, over the (column, destination) pairs
(the arity check has already ensured both lists have equal length). -/
def scanLoop (row : RowMap) : Nat → List (String × GoVal) → Except String (List GoVal)
  | _, [] => .ok []
  | i, (c, d) :: rest =>
    match scanStep row i c d with
    | .error e => .error e
    | .ok d2 =>
      match scanLoop row (i + 1) rest with
      | .error e => .error e
      | .ok ds => .ok (d2 :: ds)

/-- `Rows.Scan`: position check, arity check, then the column loop.  The Go
code mutates the destinations in place; the model returns the destination
list (on error the partially assigned destinations are not observed by any
caller in the repository). -/
def rowsScan (r : Rows) (dest : List GoVal) : Except String (List GoVal) :=
  if r.current < 0 ∨ (r.rows.length : Int) ≤ r.current then
    .error "sql: Rows is closed"
  else
    let row := r.rows.getD r.current.toNat []
    if dest.length ≠ r.columns.length then
      .error ("sql: expected " ++ toString r.columns.length ++
        " destination arguments in Scan, not " ++ toString dest.length)
    else scanLoop row 0 (r.columns.zip dest)

/-- A struct field as seen by `StructScan`'s reflection: Go field name, `db`
tag ("" when absent) and current value. -/
structure GoField where
  name : String
  tag : String
  val : GoVal
deriving Repr

/-- Column resolved for a field: the `db` tag, defaulting to the lower-cased
field name. -/
def fieldColumn (f : GoField) : String :=
  if f.tag = "" then goToLower f.name else f.tag

/-- The field loop of `StructScan` on one row: a field whose column is absent
from the row is left untouched; otherwise `convertAssign` runs and its error
is wrapped with the field name. -/
def structScanRow (row : RowMap) : List GoField → Except String (List GoField)
  | [] => .ok []
  | f :: rest =>
    match mapGet? row (fieldColumn f) with
    | none =>
      match structScanRow row rest with
      | .error e => .error e
      | .ok fs => .ok (f :: fs)
    | some v =>
      match convertAssign f.val v with
      | .error e => .error ("sql: StructScan error on field " ++ f.name ++ ": " ++ e)
      | .ok v2 =>
        match structScanRow row rest with
        | .error e => .error e
        | .ok fs => .ok ({ f with val := v2 } :: fs)

/-- `Rows.StructScan`: position check then the field loop on the current row. -/
def rowsStructScan (r : Rows) (fields : List GoField) : Except String (List GoField) :=
  if r.current < 0 ∨ (r.rows.length : Int) ≤ r.current then
    .error "sql: Rows is closed"
  else structScanRow (r.rows.getD r.current.toNat []) fields

/-- A Go slice of struct values.  `none` models a nil slice — observably
distinct from an empty one; `reflect.Append` on a nil slice yields a non-nil
slice. -/
abbrev GoSlice : Type := Option (List (List GoField))

/-- `reflect.Append(slice, elem)`. -/
def goAppend (s : GoSlice) (x : List GoField) : GoSlice :=
  some (s.getD [] ++ [x])

/-- The `for r.Next()` loop of `Rows.StructScanAll`: scan each remaining row
into a fresh zero value of the element type (`proto`) and append it;
`count` feeds the error message index. -/
def structScanAllLoop (proto : List GoField) :
    List RowMap → Nat → GoSlice → Except String GoSlice
  | [], _, dest => .ok dest
  | row :: rest, count, dest =>
    match structScanRow row proto with
    | .error e => .error ("StructScan failed at index " ++ toString count ++ ": " ++ e)
    | .ok elem => structScanAllLoop proto rest (count + 1) (goAppend dest elem)

/-- The rows the `for r.Next()` loop will visit: those after the current
position. -/
def remainingRows (r : Rows) : List RowMap :=
  r.rows.drop (r.current + 1).toNat

/-- `Rows.StructScanAll`: iterate `Next`/`StructScan` from the current
position, appending into the destination slice. -/
def rowsStructScanAll (r : Rows) (proto : List GoField) (dest : GoSlice) :
    Except String GoSlice :=
  structScanAllLoop proto (remainingRows r) 0 dest

/-- The value a destination receives when the wire value is null (for the
unregistered `gother` kind the destination is left unchanged). -/
def nullCoerce : GoVal → GoVal
  | .gstr _ => .gstr ""
  | .gint _ => .gint 0
  | .gint64 _ => .gint64 0
  | .gfloat _ => .gfloat 0
  | .gbool _ => .gbool false
  | .gany _ => .gany .vnull
  | .gother => .gother

/-! ## utils/request.go -/

/-- One entry of the `errors` list of the response envelope. -/
structure APIErrorEntry where
  Code : Int
  Message : String
deriving Repr, DecidableEq

/-- The decoded response envelope (`APIResponse`).  A `result` field that was
absent or JSON `null` decodes to a nil `interface{}`, modelled as `vnull`. -/
structure APIResponse where
  Result : WireValue
  Success : Bool
  Errors : List APIErrorEntry

/-- `for j, col := range columns { rowMap[col] = v[j] }`. -/
def buildRowMap (columns : List String) (vs : List WireValue) : RowMap :=
  (columns.zip vs).foldl (fun m p => mapSet m p.1 p.2) []

/-- Normalization of a single row inside `ToRows`: a keyed (map) row passes
through unchanged; a positional (array) row is field-matched by index when
its width equals the column count and rejected otherwise; anything else is
rejected by type. -/
def normalizeRow (columns : List String) (i : Nat) (row : WireValue) :
    Except String RowMap :=
  match row with
  | .vobj m => .ok m
  | .varr vs =>
    if columns.length = vs.length then
      .ok (buildRowMap columns vs)
    else
      .error ("row " ++ toString i ++ " has " ++ toString vs.length ++
        " values but expected " ++ toString columns.length ++ " columns")
  | v => .error ("row " ++ toString i ++ " has unexpected type: " ++ goTypeName v)

/-- The row loop of `ToRows`, indexed for error messages. -/
def normalizeRows (columns : List String) : Nat → List WireValue → Except String (List RowMap)
  | _, [] => .ok []
  | i, row :: rest =>
    match normalizeRow columns i row with
    | .error e => .error e
    | .ok m =>
      match normalizeRows columns (i + 1) rest with
      | .error e => .error e
      | .ok ms => .ok (m :: ms)

/-- Column extraction in `ToRows`: only string entries of the `columns` array
are kept; a missing or non-array `columns` yields no columns. -/
def extractColumns (rd : RowMap) : List String :=
  match mapGet? rd "columns" with
  | some (.varr cols) =>
    cols.filterMap (fun c => match c with | .vstr s => some s | _ => none)
  | _ => []

/-- `APIResponse.ToRows` from utils/request.go. -/
def ToRows (r : APIResponse) : Except String Rows :=
  if r.Success = false then
    match r.Errors with
    | e :: _ => .error ("api error: " ++ e.Message)
    | [] => .error "api error: unknown"
  else
    match r.Result with
    | .varr results =>
      match results with
      | [] => .ok (NewRows [] [])
      | first :: _ =>
        match first with
        | .vobj qr =>
          match mapGet? qr "results" with
          | some (.vobj rd) =>
            match mapGet? rd "rows" with
            | some (.varr rowsRaw) =>
              let columns := extractColumns rd
              match normalizeRows columns 0 rowsRaw with
              | .error e => .error e
              | .ok rows => .ok (NewRows rows columns)
            | _ => .ok (NewRows [] [])
          | _ => .error "missing results map"
        | _ => .error "unexpected result item format"
    | _ => .error "unexpected result format: not an array"

/-- The query-result summary returned by `ToResult`.  The file defining the
`Result` type and its constructor `NewResult` is not among the sources;
modelled from the spec (meta block: a last-inserted identifier and an
affected-row count) and from the call sites in request.go. -/
structure QueryResult where
  lastInsertId : Int
  rowsAffected : Int
deriving Repr, DecidableEq

/-- `NewResult`, modelled from the spec as the plain constructor. -/
def NewResult (lastInsertId rowsAffected : Int) : QueryResult :=
  { lastInsertId := lastInsertId, rowsAffected := rowsAffected }

/-- `APIResponse.ToResult` from utils/request.go.  Note the fallback chain for
the affected-row count: the `changes` key is preferred and, only when that key
is absent, `rows_written` is consulted. -/
def ToResult (r : APIResponse) : Except String QueryResult :=
  if r.Success = false then
    match r.Errors with
    | e :: _ => .error ("api error: " ++ e.Message)
    | [] => .error "api error: unknown"
  else
    match r.Result with
    | .varr results =>
      match results with
      | [] => .ok (NewResult 0 0)
      | first :: _ =>
        match first with
        | .vobj qr =>
          match mapGet? qr "meta" with
          | some (.vobj meta) =>
            let lastInsertId : Int :=
              match mapGet? meta "last_row_id" with
              | some (.vnum f) => ratTrunc f
              | _ => 0
            let rowsAffected : Int :=
              match mapGet? meta "changes" with
              | some v =>
                match v with
                | .vnum f => ratTrunc f
                | _ => 0
              | none =>
                match mapGet? meta "rows_written" with
                | some (.vnum f) => ratTrunc f
                | _ => 0
            .ok (NewResult lastInsertId rowsAffected)
          | _ => .ok (NewResult 0 0)
        | _ => .error "unexpected result item format"
    | _ => .error "unexpected result format: not an array"

/-! ## Helper lemmas -/

theorem goCharListLt_irrefl : ∀ as : List Char, goCharListLt as as = false
  | [] => rfl
  | a :: as => by
    simp [goCharListLt, goCharListLt_irrefl as]

theorem goCharListLt_conn :
    ∀ as bs : List Char, goCharListLt as bs = false →
      goCharListLt bs as = true ∨ as = bs
  | [], [], _ => Or.inr rfl
  | [], b :: bs, h => by simp [goCharListLt] at h
  | a :: as, [], _ => by left; simp [goCharListLt]
  | a :: as, b :: bs, h => by
    rcases lt_trichotomy a b with hab | hab | hab
    · exfalso; simp [goCharListLt, hab] at h
    · subst hab
      have h2 : goCharListLt as bs = false := by
        simpa [goCharListLt, lt_irrefl] using h
      rcases goCharListLt_conn as bs h2 with h3 | h3
      · left; simp [goCharListLt, lt_irrefl, h3]
      · right; rw [h3]
    · left; simp [goCharListLt, hab]

theorem goCharListLt_trans :
    ∀ as bs cs : List Char, goCharListLt as bs = true → goCharListLt bs cs = true →
      goCharListLt as cs = true
  | [], [], _, h1, _ => by simp [goCharListLt] at h1
  | [], _ :: _, [], _, h2 => by simp [goCharListLt] at h2
  | [], _ :: _, _ :: _, _, _ => by simp [goCharListLt]
  | _ :: _, [], _, h1, _ => by simp [goCharListLt] at h1
  | _ :: _, _ :: _, [], _, h2 => by simp [goCharListLt] at h2
  | a :: as, b :: bs, c :: cs, h1, h2 => by
    by_cases hab : a < b
    · by_cases hbc : b < c
      · simp [goCharListLt, lt_trans hab hbc]
      · by_cases hcb : c < b
        · exfalso; simp [goCharListLt, hbc, hcb] at h2
        · have hbc2 : b = c := le_antisymm (not_lt.mp hcb) (not_lt.mp hbc)
          subst hbc2
          simp [goCharListLt, hab]
    · by_cases hba : b < a
      · exfalso; simp [goCharListLt, hab, hba] at h1
      · have hab2 : a = b := le_antisymm (not_lt.mp hba) (not_lt.mp hab)
        subst hab2
        have h1r : goCharListLt as bs = true := by
          simpa [goCharListLt, lt_irrefl] using h1
        by_cases hac : a < c
        · simp [goCharListLt, hac]
        · by_cases hca : c < a
          · exfalso; simp [goCharListLt, hac, hca] at h2
          · have : a = c := le_antisymm (not_lt.mp hca) (not_lt.mp hac)
            subst this
            have h2r : goCharListLt bs cs = true := by
              simpa [goCharListLt, lt_irrefl] using h2
            simpa [goCharListLt, lt_irrefl] using goCharListLt_trans as bs cs h1r h2r

theorem goStringLe_total (a b : String) :
    goStringLe a b = true ∨ goStringLe b a = true := by
  unfold goStringLe goStringLt
  cases h : goCharListLt b.data a.data with
  | false => left; rfl
  | true =>
    right
    have hf : goCharListLt a.data b.data = false := by
      cases h2 : goCharListLt a.data b.data with
      | false => rfl
      | true =>
        have h3 := goCharListLt_trans _ _ _ h h2
        rw [goCharListLt_irrefl] at h3
        exact absurd h3 (by simp)
    rw [hf]; rfl

theorem goStringLe_trans {a b c : String}
    (h1 : goStringLe a b = true) (h2 : goStringLe b c = true) :
    goStringLe a c = true := by
  unfold goStringLe goStringLt at h1 h2 ⊢
  have h1f : goCharListLt b.data a.data = false := by
    cases hx : goCharListLt b.data a.data with
    | false => rfl
    | true => rw [hx] at h1; exact absurd h1 (by simp)
  have h2f : goCharListLt c.data b.data = false := by
    cases hx : goCharListLt c.data b.data with
    | false => rfl
    | true => rw [hx] at h2; exact absurd h2 (by simp)
  have hgoal : goCharListLt c.data a.data = false := by
    cases hca : goCharListLt c.data a.data with
    | false => rfl
    | true =>
      exfalso
      rcases goCharListLt_conn _ _ h2f with h3 | h3
      · have h4 := goCharListLt_trans _ _ _ h3 hca
        rw [h1f] at h4
        exact absurd h4 (by simp)
      · rw [h3] at hca
        rw [h1f] at hca
        exact absurd hca (by simp)
  rw [hgoal]; rfl

theorem mem_insertAsc {z x : String} :
    ∀ {l : List String}, z ∈ insertAsc x l → z = x ∨ z ∈ l := by
  intro l
  induction l with
  | nil => intro h; simp [insertAsc] at h; exact Or.inl h
  | cons y ys ih =>
    intro h
    unfold insertAsc at h
    by_cases hle : goStringLe x y = true
    · simp [hle] at h
      rcases h with h | h | h
      · exact Or.inl h
      · exact Or.inr (by simp [h])
      · exact Or.inr (by simp [h])
    · simp [hle] at h
      rcases h with h | h
      · exact Or.inr (by simp [h])
      · rcases ih h with h2 | h2
        · exact Or.inl h2
        · exact Or.inr (by simp [h2])

theorem insertAsc_sorted {x : String} :
    ∀ {l : List String}, l.Pairwise (fun a b => goStringLe a b = true) →
      (insertAsc x l).Pairwise (fun a b => goStringLe a b = true) := by
  intro l
  induction l with
  | nil => intro _; simp [insertAsc]
  | cons y ys ih =>
    intro hp
    rcases List.pairwise_cons.mp hp with ⟨hy, hys⟩
    unfold insertAsc
    by_cases hle : goStringLe x y = true
    · simp only [hle, if_true]
      refine List.pairwise_cons.mpr ⟨?_, hp⟩
      intro z hz
      rcases hz with _ | hz
      · exact hle
      · exact goStringLe_trans hle (hy z (by assumption))
    · simp only [hle, if_false]
      refine List.pairwise_cons.mpr ⟨?_, ih hys⟩
      intro z hz
      rcases mem_insertAsc hz with hzx | hzys
      · subst hzx
        rcases goStringLe_total z y with h | h
        · exact absurd h hle
        · exact h
      · exact hy z hzys

theorem insertAsc_perm (x : String) :
    ∀ l : List String, (insertAsc x l).Perm (x :: l)
  | [] => List.Perm.refl _
  | y :: ys => by
    unfold insertAsc
    by_cases hle : goStringLe x y = true
    · simp only [hle, if_true]
      exact List.Perm.refl _
    · simp only [hle, if_false]
      exact ((insertAsc_perm x ys).cons y).trans (List.Perm.swap x y ys)

theorem getAppliedIds_sorted (l : List String) :
    (getAppliedIds l).Pairwise (fun a b => goStringLe a b = true) := by
  induction l with
  | nil => simp [getAppliedIds]
  | cons x xs ih => exact insertAsc_sorted ih

theorem getAppliedIds_perm (l : List String) :
    (getAppliedIds l).Perm l := by
  induction l with
  | nil => exact List.Perm.refl _
  | cons x xs ih =>
    exact (insertAsc_perm x (getAppliedIds xs)).trans (ih.cons x)

theorem lookupMigration_id {all : List Migration} {id : String} {m : Migration}
    (h : lookupMigration all id = some m) : m.Id = id := by
  have h2 := List.find?_some h
  simpa using h2

theorem map_id_filterMap_lookup (all : List Migration) :
    ∀ l : List String,
      ((l.filterMap (lookupMigration all)).map (fun m => m.Id))
        = l.filter (fun id => (lookupMigration all id).isSome)
  | [] => rfl
  | id :: rest => by
    cases h : lookupMigration all id with
    | none =>
      simp only [List.filterMap_cons, h, List.filter_cons, Option.isSome_none,
        Bool.false_eq_true, if_false]
      exact map_id_filterMap_lookup all rest
    | some m =>
      simp only [List.filterMap_cons, h, List.filter_cons, Option.isSome_some,
        if_true, List.map_cons]
      rw [lookupMigration_id h, map_id_filterMap_lookup all rest]

theorem filter_reverse_eq {α : Type} (p : α → Bool) :
    ∀ l : List α, l.reverse.filter p = (l.filter p).reverse
  | [] => rfl
  | a :: l => by
    by_cases h : p a = true
    · simp [List.filter_cons, List.filter_append, h, filter_reverse_eq p l]
    · simp [List.filter_cons, List.filter_append, h, filter_reverse_eq p l]

theorem downPlan_eq_reverse_filterMap (all : List Migration) (l : List String) :
    planMigrations all l .down 0 = l.reverse.filterMap (lookupMigration all) := by
  unfold planMigrations
  simp

theorem downPlan_ids (all : List Migration) (l : List String) :
    (planMigrations all l .down 0).map (fun m => m.Id)
      = (l.filter (fun id => (lookupMigration all id).isSome)).reverse := by
  rw [downPlan_eq_reverse_filterMap, map_id_filterMap_lookup, filter_reverse_eq]

/-! ## C1 -/

/-- C1, counterexample: with known migrations 1_a, 3_c, 2_b applied in ledger
order ["1_a", "3_c", "2_b"], the Executor's downward plan is
["3_c", "2_b", "1_a"] (reversed id-sort order, because the ledger is read
ORDER BY id ASC), not the reversed application order ["2_b", "3_c", "1_a"]
the claim demands. -/
theorem executor_down_plan_counterexample :
    (executorDownPlan [migNamed "1_a", migNamed "3_c", migNamed "2_b"]
        ["1_a", "3_c", "2_b"] 0).map (fun m => m.Id) = ["3_c", "2_b", "1_a"]
    ∧ (["3_c", "2_b", "1_a"] : List String) ≠ ["2_b", "3_c", "1_a"] := by
  constructor
  · rfl
  · decide

/-- C1 (amended): the Executor reads the applied ids back sorted ascending by
id (`SELECT ... ORDER BY id ASC`), so its downward plan lists the applied ids
that still have a matching known migration in reversed id-sort order — the
sorted ledger read, walked backwards — not in reversed application order.
The planner itself does reverse whatever applied list it is given: fed a
list in application order it would produce exactly the reversed application
order. -/
theorem executor_down_plan_amended (all : List Migration) (ledger : List String) :
    (executorDownPlan all ledger 0).map (fun m => m.Id)
      = ((getAppliedIds ledger).filter (fun id => (lookupMigration all id).isSome)).reverse
    ∧ (planMigrations all ledger .down 0).map (fun m => m.Id)
      = (ledger.filter (fun id => (lookupMigration all id).isSome)).reverse
    ∧ (getAppliedIds ledger).Pairwise (fun a b => goStringLe a b = true)
    ∧ (getAppliedIds ledger).Perm ledger := by
  refine ⟨?_, ?_, ?_, ?_⟩
  · exact downPlan_ids all (getAppliedIds ledger)
  · exact downPlan_ids all ledger
  · exact getAppliedIds_sorted ledger
  · exact getAppliedIds_perm ledger

/-! ## C4 -/

/-- C4, counterexample: the id "10000000000000000000_x" has a numeric prefix
whose value exceeds the signed 64-bit range, so `ParseInt` fails and
`VersionInt` yields 0; `Less` therefore puts it before "5_y" even though the
integer value of its prefix is larger — the claim's "compared by the integer
value of the prefix" fails at this input. -/
theorem migration_less_overflow_counterexample :
    mLess (migNamed "10000000000000000000_x") (migNamed "5_y") = true
    ∧ isNumericId "10000000000000000000_x" = true
    ∧ isNumericId "5_y" = true
    ∧ digitsVal "5_y" < digitsVal "10000000000000000000_x" := by
  refine ⟨?_, ?_, ?_, ?_⟩ <;> decide

theorem mLess_numeric_eff (a b : Migration)
    (ha : isNumericId a.Id = true) (hb : isNumericId b.Id = true) :
    mLess a b = decide (versionIntM a < versionIntM b ∨
      (versionIntM a = versionIntM b ∧ goStringLt a.Id b.Id = true)) := by
  by_cases hv : versionIntM a = versionIntM b
  · have hbne : (versionIntM a != versionIntM b) = false := by simp [bne, hv]
    simp [mLess, ha, hb, hbne, hv]
  · have hbne : (versionIntM a != versionIntM b) = true := by simp [bne, hv]
    simp [mLess, ha, hb, hbne, hv]

/-- C4 (amended): `Less` compares two numeric-prefixed ids by the integer
value of the numeric prefix provided both values fit in a signed 64-bit
integer, falling back to lexical comparison of the full id when the values
are equal; a prefix that does not fit is treated as the value 0 (the
`ParseInt` error path); an id counts as numeric-prefixed exactly when it
starts with a decimal digit and contains no newline; a numeric-prefixed id
sorts before a non-numeric one; two non-numeric ids compare lexically; and
ids "10_x", "2_y", "alpha" order as "2_y" before "10_x" before "alpha". -/
theorem migration_less_amended :
    (∀ a b : Migration,
      (isNumericId a.Id = true → isNumericId b.Id = true →
        digitsVal a.Id < 2 ^ 63 → digitsVal b.Id < 2 ^ 63 →
        mLess a b = decide (digitsVal a.Id < digitsVal b.Id ∨
          (digitsVal a.Id = digitsVal b.Id ∧ goStringLt a.Id b.Id = true)))
      ∧ (isNumericId a.Id = true → isNumericId b.Id = true →
        mLess a b = decide (versionIntM a < versionIntM b ∨
          (versionIntM a = versionIntM b ∧ goStringLt a.Id b.Id = true)))
      ∧ (isNumericId a.Id = true → isNumericId b.Id = false → mLess a b = true)
      ∧ (isNumericId a.Id = false → isNumericId b.Id = true → mLess a b = false)
      ∧ (isNumericId a.Id = false → isNumericId b.Id = false →
        mLess a b = goStringLt a.Id b.Id))
    ∧ mLess (migNamed "2_y") (migNamed "10_x") = true
    ∧ mLess (migNamed "10_x") (migNamed "2_y") = false
    ∧ mLess (migNamed "2_y") (migNamed "alpha") = true
    ∧ mLess (migNamed "10_x") (migNamed "alpha") = true
    ∧ mLess (migNamed "alpha") (migNamed "10_x") = false := by
  refine ⟨?_, by decide, by decide, by decide, by decide, by decide⟩
  intro a b
  refine ⟨?_, ?_, ?_, ?_, ?_⟩
  · intro ha hb hva hvb
    have hba : digitsVal a.Id ≤ 2 ^ 63 - 1 := by omega
    have hbb : digitsVal b.Id ≤ 2 ^ 63 - 1 := by omega
    have hia : versionIntM a = (digitsVal a.Id : Int) := by
      simp [versionIntM, hba]
      omega
    have hib : versionIntM b = (digitsVal b.Id : Int) := by
      simp [versionIntM, hbb]
      omega
    rw [mLess_numeric_eff a b ha hb, hia, hib]
    refine decide_eq_decide.mpr ?_
    constructor
    · rintro (h | ⟨h, hlt⟩)
      · exact Or.inl (by exact_mod_cast h)
      · exact Or.inr ⟨by exact_mod_cast h, hlt⟩
    · rintro (h | ⟨h, hlt⟩)
      · exact Or.inl (by exact_mod_cast h)
      · exact Or.inr ⟨by exact_mod_cast h, hlt⟩
  · intro ha hb
    exact mLess_numeric_eff a b ha hb
  · intro ha hb
    simp [mLess, ha, hb]
  · intro ha hb
    simp [mLess, ha, hb]
  · intro ha hb
    simp [mLess, ha, hb]

/-- C4 witness: instantiating the amended ordering theorem at the
numeric/non-numeric pair "3" and "alpha". -/
theorem migration_less_amended_witness :
    mLess (migNamed "3") (migNamed "alpha") = true :=
  ((migration_less_amended.1 (migNamed "3") (migNamed "alpha")).2.2.1)
    (by decide) (by decide)

/-! ## C2 -/

/-- C2, counterexample: Named Scan All over a zero-row cursor never touches
the destination slice, so a nil destination stays nil — not the empty,
non-nil collection the claim promises. -/
theorem structScanAll_nil_counterexample :
    rowsStructScanAll (NewRows [] ["id"])
        [{ name := "Id", tag := "id", val := .gstr "" }] none = .ok none
    ∧ (none : GoSlice) ≠ (some [] : GoSlice) := by
  constructor
  · rfl
  · intro h
    exact Option.noConfusion h

/-- C2 (amended): for every zero-row cursor and every destination slice,
`StructScanAll` succeeds and leaves the destination exactly as supplied — no
element is appended; in particular a nil destination remains nil and an empty
non-nil destination remains empty. -/
theorem structScanAll_zero_rows_amended (cols : List String)
    (proto : List GoField) (dest : GoSlice) :
    rowsStructScanAll (NewRows [] cols) proto dest = .ok dest := by
  simp [rowsStructScanAll, remainingRows, NewRows, structScanAllLoop]

/-! ## C3 -/

theorem digit_not_space {c : Char} (h : c.isDigit = true) : isSpaceGo c = false := by
  unfold isSpaceGo
  simp only [decide_eq_false_iff_not]
  rintro (rfl | rfl | rfl | rfl | rfl | rfl) <;> exact absurd h (by decide)

theorem takeWhile_all {p : Char → Bool} :
    ∀ {l : List Char}, (∀ c ∈ l, p c = true) → l.takeWhile p = l := by
  intro l
  induction l with
  | nil => intro _; rfl
  | cons c cs ih =>
    intro h
    simp [List.takeWhile_cons, h c (by simp), ih (fun d hd => h d (by simp [hd]))]

theorem splitSign_digit {c : Char} (cs : List Char) (h : c.isDigit = true) :
    splitSign (c :: cs) = (false, c :: cs) := by
  have hm : ¬ (c = '-') := by
    intro hc; rw [hc] at h; exact absurd h (by decide)
  have hp : ¬ (c = '+') := by
    intro hc; rw [hc] at h; exact absurd h (by decide)
  simp [splitSign, hm, hp]

theorem sscanfInt_digits {s : String} (h1 : s.data ≠ [])
    (h2 : ∀ c ∈ s.data, c.isDigit = true) (h3 : natOfDigits s.data < 2 ^ 63) :
    sscanfInt s = some ((natOfDigits s.data : Nat) : Int) := by
  cases hd : s.data with
  | nil => exact absurd hd h1
  | cons c cs =>
    have hcd : c.isDigit = true := h2 c (by rw [hd]; simp)
    have hdrop : (c :: cs).dropWhile isSpaceGo = c :: cs := by
      rw [List.dropWhile_cons]
      simp [digit_not_space hcd]
    have hsign : splitSign (c :: cs) = (false, c :: cs) := splitSign_digit cs hcd
    have htake : (c :: cs).takeWhile Char.isDigit = c :: cs :=
      takeWhile_all (fun d hdm => h2 d (by rw [hd]; exact hdm))
    rw [hd] at h3
    simp only [sscanfInt, hd, hdrop, hsign, htake]
    rw [if_neg (by simp)]
    simp only [Bool.false_eq_true, if_false]
    rw [if_pos (by constructor <;> omega)]

/-- C3, counterexample: the wire string "25" is parsable base-10 (the int
path parses it), yet coercion into a 64-bit integer destination fails with a
conversion error — `convertAssign` has no string case for int64. -/
theorem convertAssign_int64_string_counterexample :
    convertAssign (.gint64 0) (.vstr "25") = .error "cannot convert string to int64"
    ∧ sscanfInt "25" = some 25 := by
  constructor
  · rfl
  · rfl

/-- C3 (amended): for an `int` destination a string wire value is parsed as a
leading base-10 integer (`fmt.Sscanf` semantics) — an unsigned all-digit
string in 64-bit range is assigned its base-10 value, and an unparsable
string fails with a conversion error; for an `int64` destination every string
wire value fails with a conversion error, parsable or not. -/
theorem convertAssign_int_string_amended :
    (∀ old : Int, ∀ s : String, s.data ≠ [] → (∀ c ∈ s.data, c.isDigit = true) →
      natOfDigits s.data < 2 ^ 63 →
      convertAssign (.gint old) (.vstr s) = .ok (.gint ((natOfDigits s.data : Nat) : Int)))
    ∧ (∀ old : Int, ∀ s : String, sscanfInt s = none →
      convertAssign (.gint old) (.vstr s) = .error "cannot convert string to int")
    ∧ (∀ old : Int, ∀ s : String,
      convertAssign (.gint64 old) (.vstr s) = .error "cannot convert string to int64") := by
  refine ⟨?_, ?_, ?_⟩
  · intro old s h1 h2 h3
    have h := sscanfInt_digits h1 h2 h3
    simp [convertAssign, h]
  · intro old s h
    simp [convertAssign, h, goTypeName]
  · intro old s
    rfl

/-- C3 witness: the amended coercion theorem at the strings "25" and "abc". -/
theorem convertAssign_int_string_witness :
    convertAssign (.gint 0) (.vstr "25") = .ok (.gint 25)
    ∧ convertAssign (.gint 0) (.vstr "abc") = .error "cannot convert string to int" := by
  constructor
  · have h := convertAssign_int_string_amended.1 0 "25" (by decide) (by decide) (by decide)
    rw [h]
    rfl
  · exact convertAssign_int_string_amended.2.1 0 "abc" (by rfl)

/-! ## C10 -/

/-- C10: when the current row's mapping lacks a column listed in the Column
Set, the positional Scan step for that column does not fail: the missing
value is treated as null and the destination receives its null-coercion value
(empty string, zero, false, or nil); consequently a whole Scan loop over
columns all missing from the row succeeds, null-coercing every destination. -/
theorem scan_missing_column_null :
    (∀ (row : RowMap) (i : Nat) (col : String) (d : GoVal),
      mapGet? row col = none → scanStep row i col d = .ok (nullCoerce d))
    ∧ (∀ (row : RowMap) (i : Nat) (pairs : List (String × GoVal)),
      (∀ p ∈ pairs, mapGet? row p.1 = none) →
      scanLoop row i pairs = .ok (pairs.map (fun p => nullCoerce p.2))) := by
  have hstep : ∀ (row : RowMap) (i : Nat) (col : String) (d : GoVal),
      mapGet? row col = none → scanStep row i col d = .ok (nullCoerce d) := by
    intro row i col d h
    unfold scanStep
    rw [h]
    cases d <;> rfl
  refine ⟨hstep, ?_⟩
  intro row i pairs
  induction pairs generalizing i with
  | nil => intro _; rfl
  | cons p ps ih =>
    intro h
    obtain ⟨c, d⟩ := p
    have h1 := hstep row i c d (h (c, d) (by simp))
    have h2 := ih (i + 1) (fun q hq => h q (by simp [hq]))
    simp [scanLoop, h1, h2]

/-- C10 witness: a missing "age" column scanned into an int destination
yields zero without error. -/
theorem scan_missing_column_null_witness :
    scanStep [] 0 "age" (.gint 7) = .ok (.gint 0) :=
  scan_missing_column_null.1 [] 0 "age" (.gint 7) rfl

/-! ## C5 -/

theorem mem_of_contains {l : List String} {x : String} (h : l.contains x = true) :
    x ∈ l :=
  List.mem_of_elem_eq_true h

theorem contains_of_mem {l : List String} {x : String} (h : x ∈ l) :
    l.contains x = true :=
  List.elem_eq_true_of_mem h

/-- C5: the upward plan is exactly the known migrations absent from the
ledger, in the order of the (sorted, per the `MigrationSource` contract)
known-migration list — in particular the plan is sorted whenever the input
is; and rerunning the upward planner against any ledger that includes both
the old ledger and the ids of the first plan yields the empty plan, so a
second complete upward run applies zero migrations. -/
theorem up_plan_exact_and_idempotent (all : List Migration) (applied : List String)
    (hsorted : all.Pairwise (fun a b => mLess b a = false)) :
    planMigrations all applied .up 0 = all.filter (fun m => !(applied.contains m.Id))
    ∧ (planMigrations all applied .up 0).Pairwise (fun a b => mLess b a = false)
    ∧ (∀ applied2 : List String,
        (∀ id ∈ applied ++ (planMigrations all applied .up 0).map (fun m => m.Id),
          id ∈ applied2) →
        planMigrations all applied2 .up 0 = []) := by
  have hplan : planMigrations all applied .up 0
      = all.filter (fun m => !(applied.contains m.Id)) := by
    unfold planMigrations
    simp
  refine ⟨hplan, ?_, ?_⟩
  · rw [hplan]
    exact hsorted.sublist (List.filter_sublist all)
  · intro applied2 hsub
    have hplan2 : planMigrations all applied2 .up 0
        = all.filter (fun m => !(applied2.contains m.Id)) := by
      unfold planMigrations
      simp
    rw [hplan2]
    rw [List.filter_eq_nil_iff]
    intro m hm
    suffices hmem : m.Id ∈ applied2 by
      simpa using hmem
    by_cases hc : applied.contains m.Id = true
    · exact hsub m.Id (List.mem_append.mpr (Or.inl (mem_of_contains hc)))
    · refine hsub m.Id (List.mem_append.mpr (Or.inr ?_))
      rw [hplan]
      refine List.mem_map.mpr ⟨m, ?_, rfl⟩
      refine List.mem_filter.mpr ⟨hm, ?_⟩
      cases hcc : applied.contains m.Id with
      | false => rfl
      | true => exact absurd hcc hc

/-- C5 witness: a single unapplied migration is planned once; replanning
against the ledger extended with it plans nothing. -/
theorem up_plan_exact_and_idempotent_witness :
    planMigrations [migNamed "1_a"] [] .up 0 = [migNamed "1_a"]
    ∧ planMigrations [migNamed "1_a"] ["1_a"] .up 0 = [] := by
  have h := up_plan_exact_and_idempotent [migNamed "1_a"] [] (by decide)
  constructor
  · rw [h.1]
    rfl
  · exact h.2.2 ["1_a"] (by decide)

/-! ## C6 -/

theorem runQueries_none {q : QueryOracle} :
    ∀ {qs : List String}, (runQueries q qs).2 = none →
      (runQueries q qs).1 = qs.map (fun s => (s, ([] : List String))) := by
  intro qs
  induction qs with
  | nil => intro _; rfl
  | cons s rest ih =>
    intro h
    cases hq : q s [] with
    | some e => simp [runQueries, hq] at h
    | none =>
      simp only [runQueries, hq] at h ⊢
      rw [ih h]
      rfl

theorem applyMigration_ok_trace {q : QueryOracle} {tableName now : String}
    {m : Migration} {dir : MigrationDirection}
    (h : (applyMigration q tableName now m dir).2 = none) :
    (applyMigration q tableName now m dir).1 =
      (migQueries m dir).map (fun s => (s, ([] : List String)))
        ++ [recordQuery tableName now m dir] := by
  cases hq : (runQueries q (migQueries m dir)).2 with
  | some e =>
    exfalso
    simp only [applyMigration, hq] at h
    exact Option.noConfusion h
  | none =>
    simp only [applyMigration, hq]
    rw [runQueries_none hq]

/-- C6: the apply loop runs each planned migration's statements in order
(the issued-query trace of a completed migration is exactly its statement
list for the direction followed by the ledger-recording query); on the first
failing migration it aborts, returning the count of fully completed
migrations and an error wrapping the failing migration's id and the
underlying cause; the queries already issued for completed migrations stay
in the trace (nothing is rolled back) and no later migration is touched. -/
theorem execPlan_abort_on_first_failure
    (q : QueryOracle) (tableName now : String) (dir : MigrationDirection) :
    (∀ (pre post : List Migration) (mf : Migration) (e : String),
      (∀ m ∈ pre, (applyMigration q tableName now m dir).2 = none) →
      (applyMigration q tableName now mf dir).2 = some e →
      execPlan q tableName now dir (pre ++ mf :: post) =
        (pre.length,
         some ("failed to apply migration " ++ mf.Id ++ ": " ++ e),
         (pre.map (fun m => (applyMigration q tableName now m dir).1)).flatten
           ++ (applyMigration q tableName now mf dir).1))
    ∧ (∀ plan : List Migration,
      (∀ m ∈ plan, (applyMigration q tableName now m dir).2 = none) →
      execPlan q tableName now dir plan =
        (plan.length, none,
         (plan.map (fun m => (applyMigration q tableName now m dir).1)).flatten))
    ∧ (∀ m : Migration, (applyMigration q tableName now m dir).2 = none →
      (applyMigration q tableName now m dir).1 =
        (migQueries m dir).map (fun s => (s, ([] : List String)))
          ++ [recordQuery tableName now m dir]) := by
  have hsucc : ∀ plan : List Migration,
      (∀ m ∈ plan, (applyMigration q tableName now m dir).2 = none) →
      execPlan q tableName now dir plan =
        (plan.length, none,
         (plan.map (fun m => (applyMigration q tableName now m dir).1)).flatten) := by
    intro plan
    induction plan with
    | nil => intro _; rfl
    | cons m rest ih =>
      intro h
      have hm := h m (by simp)
      simp only [execPlan, hm, ih (fun x hx => h x (by simp [hx])), List.map_cons,
        List.flatten_cons, List.length_cons]
  refine ⟨?_, hsucc, fun m hm => applyMigration_ok_trace hm⟩
  intro pre post mf e hpre hf
  induction pre with
  | nil =>
    simp only [List.nil_append, execPlan, hf, List.map_nil, List.flatten_nil,
      List.length_nil]
  | cons p ps ih =>
    have hp := hpre p (by simp)
    have ihr := ih (fun x hx => hpre x (by simp [hx]))
    simp only [List.cons_append, execPlan, hp, List.append_eq]
    rw [ihr]
    simp [List.append_assoc]

/-- C6 witness: a three-migration plan whose second migration's only
statement fails: one migration completes, the error wraps the failing id and
cause, the trace holds the first migration's ledger insert (not rolled back)
and the failing statement, and the third migration is never touched. -/
theorem execPlan_abort_witness :
    execPlan (fun s _ => if s = "BAD" then some "boom" else none) "" "t0" .up
        [migNamed "1_a", { migNamed "2_b" with Up := ["BAD"] }, migNamed "3_c"]
      = (1, some "failed to apply migration 2_b: boom",
         [("INSERT INTO d1_migrations (id, applied_at) VALUES (?, ?);", ["1_a", "t0"]),
          ("BAD", ([] : List String))]) := by
  have h := (execPlan_abort_on_first_failure
      (fun s _ => if s = "BAD" then some "boom" else none) "" "t0" .up).1
    [migNamed "1_a"] [migNamed "3_c"] { migNamed "2_b" with Up := ["BAD"] } "boom"
    (by decide) (by rfl)
  exact h

/-! ## C7 -/

/-- C7: a failure envelope is normalized — by `ToRows` and `ToResult` alike —
to an APIError carrying the first reported message when the error list is
non-empty, and the generic unknown-error message when it is empty. -/
theorem failure_envelope_api_error (r : APIResponse) (h : r.Success = false) :
    (∀ (e : APIErrorEntry) (es : List APIErrorEntry), r.Errors = e :: es →
      ToRows r = .error ("api error: " ++ e.Message)
      ∧ ToResult r = .error ("api error: " ++ e.Message))
    ∧ (r.Errors = [] →
      ToRows r = .error "api error: unknown"
      ∧ ToResult r = .error "api error: unknown") := by
  constructor
  · intro e es he
    constructor
    · simp [ToRows, h, he]
    · simp [ToResult, h, he]
  · intro he
    constructor
    · simp [ToRows, h, he]
    · simp [ToResult, h, he]

/-- C7 witness: a concrete failure envelope with one error message and one
with none. -/
theorem failure_envelope_api_error_witness :
    ToRows { Result := .vnull, Success := false,
             Errors := [{ Code := 1, Message := "boom" }] } = .error "api error: boom"
    ∧ ToResult { Result := .vnull, Success := false, Errors := [] }
      = .error "api error: unknown" := by
  constructor
  · exact ((failure_envelope_api_error
      { Result := .vnull, Success := false,
        Errors := [{ Code := 1, Message := "boom" }] } rfl).1
      { Code := 1, Message := "boom" } [] rfl).1
  · exact ((failure_envelope_api_error
      { Result := .vnull, Success := false, Errors := [] } rfl).2 rfl).2

/-! ## C8 -/

theorem mapSet_append_of_fresh {acc : RowMap} {k : String} {v : WireValue}
    (h : ∀ a ∈ acc, a.1 ≠ k) : mapSet acc k v = acc ++ [(k, v)] := by
  unfold mapSet
  congr 1
  apply List.filter_eq_self.mpr
  intro a ha
  simp [h a ha]

theorem foldl_mapSet_nodup :
    ∀ (ps : List (String × WireValue)) (acc : RowMap),
      (∀ p ∈ ps, ∀ a ∈ acc, a.1 ≠ p.1) → (ps.map Prod.fst).Nodup →
      ps.foldl (fun m p => mapSet m p.1 p.2) acc = acc ++ ps
  | [], acc, _, _ => by simp
  | p :: ps, acc, hdisj, hnd => by
    have hset : mapSet acc p.1 p.2 = acc ++ [p] := by
      rw [mapSet_append_of_fresh (fun a ha => hdisj p (by simp) a ha)]
    have hnd2 : (ps.map Prod.fst).Nodup := by
      rw [List.map_cons] at hnd
      exact hnd.of_cons
    have hdisj2 : ∀ pp ∈ ps, ∀ a ∈ acc ++ [p], a.1 ≠ pp.1 := by
      intro pp hpp a ha
      rcases List.mem_append.mp ha with ha | ha
      · exact hdisj pp (by simp [hpp]) a ha
      · have hap : a = p := by simpa using ha
        subst hap
        rw [List.map_cons] at hnd
        have := List.rel_of_pairwise_cons hnd (List.mem_map_of_mem Prod.fst hpp)
        exact this
    rw [List.foldl_cons, hset, foldl_mapSet_nodup ps (acc ++ [p]) hdisj2 hnd2]
    simp

theorem buildRowMap_eq_zip {columns : List String} {vs : List WireValue}
    (hnd : columns.Nodup) (hlen : columns.length = vs.length) :
    buildRowMap columns vs = columns.zip vs := by
  unfold buildRowMap
  rw [foldl_mapSet_nodup (columns.zip vs) [] (by simp) ?_]
  · simp
  · rw [List.map_fst_zip columns vs (le_of_eq hlen)]
    exact hnd

theorem mapGet_zip_nodup :
    ∀ (cols : List String) (vs : List WireValue) (j : Nat) (hj : j < cols.length)
      (hv : j < vs.length), cols.Nodup →
      mapGet? (cols.zip vs) (cols.get ⟨j, hj⟩) = some (vs.get ⟨j, hv⟩)
  | c :: cs, v :: vs, 0, _, _, _ => by
    simp [mapGet?, List.zip_cons_cons, List.find?]
  | c :: cs, v :: vs, j + 1, hj, hv, hnd => by
    have hj2 : j < cs.length := by simpa using hj
    have hv2 : j < vs.length := by simpa using hv
    have hmem : cs.get ⟨j, hj2⟩ ∈ cs := List.get_mem cs j hj2
    have hcne : c ≠ cs.get ⟨j, hj2⟩ := by
      intro hc
      rw [← hc] at hmem
      exact (List.nodup_cons.mp hnd).1 hmem
    have hne : ((c, v).1 == cs.get ⟨j, hj2⟩) = false := by simpa using hcne
    have ih := mapGet_zip_nodup cs vs j hj2 hv2 (List.nodup_cons.mp hnd).2
    show mapGet? ((c, v) :: cs.zip vs) (cs.get ⟨j, hj2⟩) = some (vs.get ⟨j, hv2⟩)
    unfold mapGet?
    rw [List.find?_cons_of_neg _ (by simpa using hcne)]
    exact ih

/-- C8: a positional (array-shaped) row whose width differs from the Column
Set length is rejected with the width-mismatch error naming the row index and
the actual and expected widths; a row of matching width is accepted and
field-matched by index — with a duplicate-free Column Set, looking up column
j in the produced row map yields value j. -/
theorem positional_row_width (columns : List String) (i : Nat) (vs : List WireValue) :
    (vs.length ≠ columns.length →
      normalizeRow columns i (.varr vs) =
        .error ("row " ++ toString i ++ " has " ++ toString vs.length ++
          " values but expected " ++ toString columns.length ++ " columns"))
    ∧ (vs.length = columns.length →
      normalizeRow columns i (.varr vs) = .ok (buildRowMap columns vs)
      ∧ (columns.Nodup → ∀ (j : Nat) (hj : j < columns.length) (hv : j < vs.length),
          mapGet? (buildRowMap columns vs) (columns.get ⟨j, hj⟩)
            = some (vs.get ⟨j, hv⟩))) := by
  constructor
  · intro hne
    simp only [normalizeRow]
    rw [if_neg (fun heq => hne heq.symm)]
  · intro heq
    constructor
    · simp only [normalizeRow]
      rw [if_pos heq.symm]
    · intro hnd j hj hv
      rw [buildRowMap_eq_zip hnd heq.symm]
      exact mapGet_zip_nodup columns vs j hj hv hnd

/-- C8 witness: a two-column set rejects a width-1 positional row with the
exact error and accepts a width-2 row, pairing column "b" with the second
value. -/
theorem positional_row_width_witness :
    normalizeRow ["a", "b"] 0 (.varr [.vstr "u"]) =
      .error "row 0 has 1 values but expected 2 columns"
    ∧ mapGet? (buildRowMap ["a", "b"] [.vstr "u", .vstr "w"]) "b"
      = some (.vstr "w") := by
  constructor
  · exact ((positional_row_width ["a", "b"] 0 [.vstr "u"]).1 (by decide)).trans (by rfl)
  · exact ((positional_row_width ["a", "b"] 0 [.vstr "u", .vstr "w"]).2 rfl).2
      (by decide) 1 (by decide) (by decide)

/-! ## C9 -/

theorem parse_regular_lines :
    ∀ (lines : List String) (st : ParseState),
      (∀ l ∈ lines, isDirectiveLine l = false) →
      lines.foldl parseLine st =
        { dir := st.dir, buf := lines.foldl bufAppendLine st.buf, parsed := st.parsed } := by
  intro lines
  induction lines with
  | nil => intro st _; rfl
  | cons l ls ih =>
    intro st h
    have hl := h l (by simp)
    obtain ⟨⟨⟨ha, hb⟩, hc⟩, hd2⟩ :
        ((goStartsWith l "-- +migrate Up" = false
          ∧ goStartsWith l "-- +migrate Down" = false)
          ∧ goStartsWith l "-- +migrate StatementBegin" = false)
          ∧ goStartsWith l "-- +migrate StatementEnd" = false := by
      simpa [isDirectiveLine] using hl
    have hstep : parseLine st l = { st with buf := bufAppendLine st.buf l } := by
      simp [parseLine, ha, hb, hc, hd2]
    rw [List.foldl_cons, List.foldl_cons, hstep,
      ih _ (fun x hx => h x (by simp [hx]))]

theorem stmtsOf_empty : stmtsOf "" = [] := rfl

theorem flushed_up_suffix (st : ParseState) :
    ∃ s, (if st.buf ≠ "" then appendStatement st.parsed st.dir st.buf
          else st.parsed).UpStatements = st.parsed.UpStatements ++ s := by
  by_cases hb : st.buf ≠ ""
  · rw [if_pos hb]
    cases hd : st.dir
    · exact ⟨stmtsOf st.buf, by simp [appendStatement]⟩
    · exact ⟨[], by simp [appendStatement]⟩
  · rw [if_neg hb]
    exact ⟨[], by simp⟩

theorem parseLine_up_suffix (st : ParseState) (l : String) :
    ∃ s, (parseLine st l).parsed.UpStatements = st.parsed.UpStatements ++ s := by
  obtain ⟨s, hs⟩ := flushed_up_suffix st
  by_cases h1 : goStartsWith l "-- +migrate Up" = true
  · refine ⟨s, ?_⟩
    by_cases hn : containsSubstr l "notransaction" = true
    · simpa [parseLine, h1, hn] using hs
    · simpa [parseLine, h1, hn] using hs
  · by_cases h2 : goStartsWith l "-- +migrate Down" = true
    · refine ⟨s, ?_⟩
      by_cases hn : containsSubstr l "notransaction" = true
      · simpa [parseLine, h1, h2, hn] using hs
      · simpa [parseLine, h1, h2, hn] using hs
    · by_cases h3 : goStartsWith l "-- +migrate StatementBegin" = true
      · exact ⟨[], by simp [parseLine, h1, h2, h3]⟩
      · by_cases h4 : goStartsWith l "-- +migrate StatementEnd" = true
        · exact ⟨[], by simp [parseLine, h1, h2, h3, h4]⟩
        · exact ⟨[], by simp [parseLine, h1, h2, h3, h4]⟩

theorem foldl_parseLine_up_suffix :
    ∀ (lines : List String) (st : ParseState),
      ∃ s, (lines.foldl parseLine st).parsed.UpStatements
        = st.parsed.UpStatements ++ s
  | [], st => ⟨[], (List.append_nil _).symm⟩
  | l :: ls, st => by
    obtain ⟨s1, h1⟩ := parseLine_up_suffix st l
    obtain ⟨s2, h2⟩ := foldl_parseLine_up_suffix ls (parseLine st l)
    exact ⟨s1 ++ s2, by rw [List.foldl_cons, h2, h1, List.append_assoc]⟩

theorem parseLine_flush_up (st : ParseState) (d : String)
    (hdir : st.dir = .up)
    (hd : goStartsWith d "-- +migrate Up" = true
      ∨ goStartsWith d "-- +migrate Down" = true) :
    (parseLine st d).parsed.UpStatements
      = st.parsed.UpStatements ++ stmtsOf st.buf := by
  have hflush : (if st.buf ≠ "" then appendStatement st.parsed st.dir st.buf
      else st.parsed).UpStatements = st.parsed.UpStatements ++ stmtsOf st.buf := by
    by_cases hb : st.buf ≠ ""
    · rw [if_pos hb, hdir]
      rfl
    · rw [if_neg hb, not_not.mp hb, stmtsOf_empty, List.append_nil]
  by_cases hup : goStartsWith d "-- +migrate Up" = true
  · by_cases hn : containsSubstr d "notransaction" = true
    · simpa [parseLine, hup, hn] using hflush
    · simpa [parseLine, hup, hn] using hflush
  · have hdown : goStartsWith d "-- +migrate Down" = true := by
      rcases hd with h | h
      · exact absurd h hup
      · exact h
    by_cases hn : containsSubstr d "notransaction" = true
    · simpa [parseLine, hup, hdown, hn] using hflush
    · simpa [parseLine, hup, hdown, hn] using hflush

/-- C9: the parser starts in the Up section: a migration text with no
directive lines at all parses to an Up statement list holding every
accumulated statement (and nothing in Down, no flags); and whatever comes
after the first direction directive, the statements accumulated from the
non-directive lines before it form a prefix of the Up statement list. -/
theorem parser_initial_section_up :
    (∀ lines : List String, (∀ l ∈ lines, isDirectiveLine l = false) →
      parseMigrationLines lines =
        { UpStatements := stmtsOf (accumLines lines), DownStatements := [],
          DisableTransactionUp := false, DisableTransactionDown := false })
    ∧ (∀ (pre : List String) (d : String) (rest : List String),
      (∀ l ∈ pre, isDirectiveLine l = false) →
      (goStartsWith d "-- +migrate Up" = true
        ∨ goStartsWith d "-- +migrate Down" = true) →
      ∃ suffix, (parseMigrationLines (pre ++ d :: rest)).UpStatements
        = stmtsOf (accumLines pre) ++ suffix) := by
  constructor
  · intro lines h
    simp only [parseMigrationLines]
    rw [parse_regular_lines lines initParseState h]
    dsimp only [initParseState]
    by_cases hb : lines.foldl bufAppendLine "" ≠ ""
    · rw [if_pos hb]
      rfl
    · rw [if_neg hb]
      have hb2 : lines.foldl bufAppendLine "" = "" := not_not.mp hb
      simp only [accumLines, hb2, stmtsOf_empty]
  · intro pre d rest hpre hd
    simp only [parseMigrationLines]
    rw [List.foldl_append, parse_regular_lines pre initParseState hpre,
      List.foldl_cons]
    dsimp only [initParseState]
    have hstep := parseLine_flush_up
      { dir := .up, buf := pre.foldl bufAppendLine "",
        parsed := { UpStatements := [], DownStatements := [],
                    DisableTransactionUp := false, DisableTransactionDown := false } }
      d rfl hd
    obtain ⟨s2, h2⟩ := foldl_parseLine_up_suffix rest
      (parseLine
        { dir := .up, buf := pre.foldl bufAppendLine "",
          parsed := { UpStatements := [], DownStatements := [],
                      DisableTransactionUp := false, DisableTransactionDown := false } }
        d)
    obtain ⟨s3, h3⟩ := flushed_up_suffix
      (rest.foldl parseLine
        (parseLine
          { dir := .up, buf := pre.foldl bufAppendLine "",
            parsed := { UpStatements := [], DownStatements := [],
                        DisableTransactionUp := false,
                        DisableTransactionDown := false } }
          d))
    refine ⟨s2 ++ s3, ?_⟩
    rw [h3, h2, hstep]
    simp [accumLines, List.append_assoc]

/-- C9 witness: a directive-free text accumulates into the Up list; the spec
scenario text parses its pre-Down lines into Up. -/
theorem parser_initial_section_up_witness :
    parseMigrationLines ["CREATE TABLE t(x);"] =
      { UpStatements := ["CREATE TABLE t(x)"], DownStatements := [],
        DisableTransactionUp := false, DisableTransactionDown := false } := by
  have h := parser_initial_section_up.1 ["CREATE TABLE t(x);"] (by decide)
  rw [h]
  rfl

end D1
